import Mathlib

/-!
Verification of the updateCursor repository's version-state orchestration
engine against its specification.  The Go sources are shallowly embedded:
strings are lists of characters, the filesystem and network are explicit
state/environment records, and each Go function of interest is translated
into an executable Lean definition with the same name where possible.
-/

set_option maxHeartbeats 16000000

namespace UC

/-- Strings are modelled as lists of characters. -/
abbrev Str := List Char

/-- Splitting a string around every occurrence of a separator character,
modelling Go's strings.Split with a one-character separator. -/
def splitOnC (sep : Char) : Str → List Str
  | [] => [[]]
  | c :: rest =>
    let r := splitOnC sep rest
    if c = sep then [] :: r else (c :: r.headI) :: r.tail

/-- Whitespace set of Go's unicode.IsSpace restricted to Latin-1
(higher code points of class Zs are not modelled; the repository's ledger
content is ASCII). -/
def isSpaceGo (c : Char) : Bool :=
  c = ' ' || c = '\t' || c = '\n' || c = '\x0b' || c = '\x0c' || c = '\r' ||
    c = '\x85' || c = '\u00A0'

/-- Go's strings.TrimSpace: drop leading and trailing whitespace. -/
def trimGo (l : Str) : Str :=
  ((l.dropWhile isSpaceGo).reverse.dropWhile isSpaceGo).reverse

/-- Decimal value of a digit string (big-endian), as accumulated by Go's
integer parsing. -/
def digitsToNat (l : Str) : Nat :=
  l.foldl (fun a c => 10 * a + (c.toNat - 48)) 0

/-! ## internal/version/version.go -/

/-- Language of the regex fragment [0-9]+(\.[0-9]+)* used by SemverFromName:
one or more dot-separated nonempty groups of ASCII digits. -/
def versionLike (l : Str) : Bool :=
  (splitOnC '.' l).all (fun g => !g.isEmpty && g.all Char.isDigit)

/-- SemverFromName from internal/version/version.go: matches the filename
against the anchored regex Cursor-([0-9]+(\.[0-9]+)*)-x86_64\.AppImage and
returns the captured version, or the empty string when there is no match.
The anchored regex is embedded as: the literal seven-character head, the
literal sixteen-character tail, and a versionLike middle (the capture is
unique because the middle contains no dash). -/
def semverFromName (s : Str) : Str :=
  if s = [] then [] else
  let hd := "Cursor-".data
  let tl := "-x86_64.AppImage".data
  if s.take hd.length = hd ∧ s.drop (s.length - tl.length) = tl then
    let mid := (s.drop hd.length).take ((s.drop hd.length).length - tl.length)
    if versionLike mid then mid else []
  else []

/-- Go's strconv.Atoi: an optional single leading sign followed by one or
more ASCII digits, base 10; values outside the int64 range are an error
(ErrRange), modelled as none. -/
def atoi (s : Str) : Option Int :=
  match s with
  | [] => none
  | c :: r =>
    let ds : Str := if c = '+' ∨ c = '-' then r else c :: r
    let neg : Bool := decide (c = '-')
    if ds = [] ∨ ¬ ds.all Char.isDigit then none
    else
      let v : Int :=
        if neg then -(digitsToNat ds : Int) else (digitsToNat ds : Int)
      if v < -(2 ^ 63) ∨ 2 ^ 63 - 1 < v then none else some v

/-- ParseSemver from internal/version/version.go: empty strings fail, the
string must split into exactly three dot-separated parts, and each part is
parsed with strconv.Atoi. -/
def parseSemver (s : Str) : Option (Int × Int × Int) :=
  if s = [] then none else
  match splitOnC '.' s with
  | [a, b, c] =>
    match atoi a, atoi b, atoi c with
    | some x, some y, some z => some (x, y, z)
    | _, _, _ => none
  | _ => none

/-- LessThan from internal/version/version.go: false when either side is
empty or fails to parse, otherwise lexicographic comparison of the three
components with early returns. -/
def lessThan (v1 v2 : Str) : Bool :=
  if v1 = [] ∨ v2 = [] then false else
  match parseSemver v1, parseSemver v2 with
  | some (a1, b1, c1), some (a2, b2, c2) =>
    if a1 < a2 then true
    else if a2 < a1 then false
    else if b1 < b2 then true
    else if b2 < b1 then false
    else decide (c1 < c2)
  | _, _ => false

/-! ## internal/config/config.go -/

/-- Go's strings.ReplaceAll for a nonempty pattern: scan left to right,
replacing each non-overlapping occurrence; the replacement text is not
rescanned.  (The source only ever calls this with the literal nonempty
pattern given by the version placeholder.) -/
def replaceAllAux (pat rep : Str) : Nat → Str → Str
  | _, [] => []
  | 0, c :: rest =>
    if pat ≠ [] ∧ (c :: rest).take pat.length = pat then
      rep ++ replaceAllAux pat rep (pat.length - 1) rest
    else
      c :: replaceAllAux pat rep 0 rest
  | k + 1, _ :: rest => replaceAllAux pat rep k rest

def replaceAll (pat rep s : Str) : Str := replaceAllAux pat rep 0 s

/-- Configuration record from internal/config/config.go (paths already
expanded). -/
structure Config where
  downloadDir : Str
  fileNamePattern : Str
  latestSymlink : Str
  ledgerPath : Str
deriving DecidableEq, Repr

/-- NewConfig's default values. -/
def defaultConfig : Config :=
  { downloadDir := "~/Downloads/Cursor".data
    fileNamePattern := "Cursor-<version>-x86_64.AppImage".data
    latestSymlink := "~/Downloads/Cursor/Cursor.AppImage".data
    ledgerPath := "~/.config/updateCursor/cursor-versions.log".data }

/-- Config.GenerateFileName: replace every occurrence of the version
placeholder in the configured pattern. -/
def Config.generateFileName (c : Config) (version : Str) : Str :=
  replaceAll "<version>".data version c.fileNamePattern

/-! ## Time: proleptic Gregorian calendar and RFC 3339, modelling the
corresponding behaviour of Go's time package (time.Time values are
identified with their absolute nanosecond count since the Unix epoch;
zone information is irrelevant because the ledger formats in UTC and
compares instants absolutely). -/

/-- Days-to-civil-date conversion (proleptic Gregorian calendar). -/
def civilFromDays (z : Int) : Int × Int × Int :=
  let z' := z + 719468
  let era := z' / 146097
  let doe := z' - era * 146097
  let yoe := (doe - doe / 1460 + doe / 36524 - doe / 146096) / 365
  let y := yoe + era * 400
  let doy := doe - (365 * yoe + yoe / 4 - yoe / 100)
  let mp := (5 * doy + 2) / 153
  let d := doy - (153 * mp + 2) / 5 + 1
  let m := if mp < 10 then mp + 3 else mp - 9
  (if m ≤ 2 then y + 1 else y, m, d)

/-- Civil-date-to-days conversion, the inverse direction. -/
def daysFromCivil (y m d : Int) : Int :=
  let y' := if m ≤ 2 then y - 1 else y
  let era := y' / 400
  let yoe := y' - era * 400
  let mp := (m + 9) % 12
  let doy := (153 * mp + 2) / 5 + d - 1
  let doe := yoe * 365 + yoe / 4 - yoe / 100 + doy
  era * 146097 + doe - 719468

/-- Number of days in a month of the proleptic Gregorian calendar, with the
leap-year rule for February, as validated by Go's time parsing. -/
def daysInMonth (y : Int) (m : Int) : Int :=
  if m = 2 then (if y % 4 = 0 ∧ (y % 100 ≠ 0 ∨ y % 400 = 0) then 29 else 28)
  else if m = 4 ∨ m = 6 ∨ m = 9 ∨ m = 11 then 30
  else 31

/-- Fuel-driven helper for natDigits (the fuel strictly exceeds the
argument, which suffices because the argument shrinks tenfold each step). -/
def natDigitsAux : Nat → Nat → Str
  | 0, _ => []
  | fuel + 1, n =>
    if n < 10 then [Nat.digitChar n]
    else natDigitsAux fuel (n / 10) ++ [Nat.digitChar (n % 10)]

/-- Minimal decimal digit string of a natural number. -/
def natDigits (n : Nat) : Str := natDigitsAux (n + 1) n

/-- Decimal rendering zero-padded on the left to at least the given width,
as Go's time formatting pads calendar components. -/
def padNat (w n : Nat) : Str :=
  List.replicate (w - (natDigits n).length) '0' ++ natDigits n

/-- Signed padded rendering (a sign precedes the padded magnitude). -/
def padInt (w : Nat) (v : Int) : Str :=
  if v < 0 then '-' :: padNat w (-v).toNat else padNat w v.toNat

/-- Timestamp.UTC().Format(time.RFC3339) for an absolute timestamp given in
nanoseconds: second-precision civil UTC rendering; fractional seconds are
not printed by this layout. -/
def formatRFC3339 (tns : Int) : Str :=
  let secs := tns / 1000000000
  let z := secs / 86400
  let sod := secs % 86400
  match civilFromDays z with
  | (y, m, d) =>
    padInt 4 y ++ '-' :: (padInt 2 m ++ '-' :: (padInt 2 d ++ 'T' ::
      (padInt 2 (sod / 3600) ++ ':' :: (padInt 2 ((sod % 3600) / 60) ++ ':' ::
        (padInt 2 (sod % 60) ++ ['Z'])))))

/-- Reads exactly k ASCII digits from the head of the input and returns
their value together with the remaining input. -/
def readDigits (k : Nat) (s : Str) : Option (Nat × Str) :=
  if (s.take k).length = k ∧ (s.take k).all Char.isDigit then
    some (digitsToNat (s.take k), s.drop k)
  else none

/-- Optional fractional-second field after the seconds: a dot or comma
followed by one or more digits (Go accepts both separators); at most the
first nine digits contribute, scaled to nanoseconds. -/
def parseFrac (s : Str) : Option (Int × Str) :=
  match s with
  | c :: rest =>
    if c = '.' ∨ c = ',' then
      let ds := rest.takeWhile Char.isDigit
      if ds = [] then none
      else
        some (((digitsToNat (ds.take 9)) * 10 ^ (9 - min 9 ds.length) : Nat),
          rest.drop ds.length)
    else some (0, s)
  | [] => some (0, s)

/-- Zone field of the RFC 3339 layout: the letter Z, or a sign followed by a
colon-separated two-digit hour and minute offset; the returned value is the
offset in seconds east of UTC. -/
def parseZone (s : Str) : Option (Int × Str) :=
  match s with
  | 'Z' :: rest => some (0, rest)
  | c :: rest =>
    if c = '+' ∨ c = '-' then
      match readDigits 2 rest with
      | some (oh, s1) =>
        match s1 with
        | ':' :: s2 =>
          match readDigits 2 s2 with
          | some (om, s3) =>
            some (if c = '-' then -((oh : Int) * 3600 + om * 60)
              else ((oh : Int) * 3600 + om * 60), s3)
          | none => none
        | _ => none
      | none => none
    else none
  | [] => none

/-- time.Parse(time.RFC3339, s), modelled to nanosecond precision: the
fixed layout yyyy-mm-ddThh:mm:ss with optional fraction and a Z or signed
offset zone, with the range validation Go performs on each calendar
component; the result is the absolute timestamp in nanoseconds. -/
def parseRFC3339 (s : Str) : Option Int :=
  match readDigits 4 s with
  | none => none
  | some (y, s1) =>
  match s1 with
  | '-' :: s2 =>
    match readDigits 2 s2 with
    | none => none
    | some (mo, s3) =>
    match s3 with
    | '-' :: s4 =>
      match readDigits 2 s4 with
      | none => none
      | some (d, s5) =>
      match s5 with
      | 'T' :: s6 =>
        match readDigits 2 s6 with
        | none => none
        | some (h, s7) =>
        match s7 with
        | ':' :: s8 =>
          match readDigits 2 s8 with
          | none => none
          | some (mi, s9) =>
          match s9 with
          | ':' :: s10 =>
            match readDigits 2 s10 with
            | none => none
            | some (sec, s11) =>
            match parseFrac s11 with
            | none => none
            | some (frac, s12) =>
            match parseZone s12 with
            | none => none
            | some (offs, s13) =>
            if s13 = [] ∧ 1 ≤ mo ∧ mo ≤ 12 ∧ 1 ≤ d ∧
                (d : Int) ≤ daysInMonth y mo ∧ h ≤ 23 ∧ mi ≤ 59 ∧ sec ≤ 59 then
              some ((daysFromCivil y mo d * 86400 +
                (h : Int) * 3600 + (mi : Int) * 60 + (sec : Int) - offs) *
                  1000000000 + frac)
            else none
          | _ => none
        | _ => none
      | _ => none
    | _ => none
  | _ => none

/-! ## internal/ledger/ledger.go -/

/-- Ledger entry record; the timestamp is an absolute instant in
nanoseconds since the Unix epoch. -/
structure Entry where
  timestamp : Int
  version : Str
  internalID : Str
  filename : Str
  sha256 : Str
  action : Str
deriving DecidableEq, Repr

/-- The newline-free part of the TSV line written by Ledger.Append: six
tab-separated fields, the RFC 3339 UTC timestamp first and the action tag
last. -/
def formatBody (e : Entry) : Str :=
  formatRFC3339 e.timestamp ++ '\t' :: (e.version ++ '\t' :: (e.internalID ++
    '\t' :: (e.filename ++ '\t' :: (e.sha256 ++ '\t' :: e.action))))

/-- The single line written by Ledger.Append for an entry: the six-field
body terminated by a newline. -/
def formatLine (e : Entry) : Str := formatBody e ++ ['\n']

/-- Ledger.Append on the ledger file contents (none models an absent file;
O_APPEND with O_CREATE creates the file and otherwise appends one line,
never rewriting existing bytes). -/
def ledgerAppend (file : Option Str) (e : Entry) : Option Str :=
  some (file.getD [] ++ formatLine e)

/-- parseEntry from internal/ledger/ledger.go: exactly six tab-separated
fields, the first of which must parse as an RFC 3339 timestamp. -/
def parseEntry (line : Str) : Option Entry :=
  match splitOnC '\t' line with
  | [a, b, c, d, e, f] =>
    match parseRFC3339 a with
    | some ts => some ⟨ts, b, c, d, e, f⟩
    | none => none
  | _ => none

/-- One scanner line as processed by Ledger.ReadAll: trim whitespace, skip
blank lines, and silently skip lines parseEntry rejects. -/
def readLine (l : Str) : Option Entry :=
  if trimGo l = [] then none else parseEntry (trimGo l)

/-- Ledger.ReadAll: an absent ledger file yields the empty sequence; the
contents are split into newline-separated lines and each line is processed
by readLine, malformed lines being skipped without aborting. -/
def readAll (file : Option Str) : List Entry :=
  match file with
  | none => []
  | some content => (splitOnC '\n' content).filterMap readLine

/-- Scan step of Ledger.GetLatestVersion: the candidate is replaced only
when the scanned entry's timestamp is strictly later (Time.After). -/
def laterEntry (latest e : Entry) : Entry :=
  if latest.timestamp < e.timestamp then e else latest

/-- Ledger.GetLatestVersion: an error on an empty ledger (distinct from an
I/O failure), otherwise the fold over the entries with laterEntry. -/
def getLatestVersion (file : Option Str) : Option Entry :=
  match readAll file with
  | [] => none
  | e :: es => some (es.foldl laterEntry e)

/-- Ledger.FindByInternalID: linear filter over ReadAll. -/
def findByInternalID (file : Option Str) (id : Str) : List Entry :=
  (readAll file).filter (fun e => e.internalID = id)

/-! ## internal/updater/updater.go and internal/cli/run.go

The filesystem state visible to the updater is embedded explicitly: the
download/work directory listing, the current-reference path, the ledger
file contents, the version file, and a counter of network GET downloads.
Network responses and the clock are supplied through an environment
record. -/

/-- State of the current-reference path (launchLink / latest_symlink). -/
inductive RefState where
  | absent
  | symlink (target : Str)
  | regular (size : Nat)
deriving DecidableEq, Repr

/-- One entry of the work-directory listing, as seen by os.ReadDir. -/
structure FileEntry where
  name : Str
  isDir : Bool
  size : Nat
deriving DecidableEq, Repr

/-- The filesystem state acted on by one CLI invocation. -/
structure World where
  files : List FileEntry
  ref : RefState
  ledger : Option Str
  versionFile : Option Str
  networkGets : Nat
deriving DecidableEq, Repr

/-- Environment of one invocation: the result of resolving the remote
version (GetRemoteVersion), the size of a downloaded artifact, its hex
digest, whether ledger appends succeed, and the current time in
nanoseconds. -/
structure Env where
  remote : Except Unit Str
  fetchedSize : Nat
  digest : Str
  appendOk : Bool
  now : Int
deriving Repr

/-- Go's strings.Contains: the needle occurs as a contiguous substring. -/
def containsSub (needle hay : Str) : Bool :=
  hay.tails.any (fun t => t.take needle.length = needle)

/-- filepath.Base for slash-separated paths: the last element after
trailing slashes are removed; the empty path gives a dot and an all-slash
path gives a slash. -/
def baseName (p : Str) : Str :=
  if p = [] then ".".data
  else
    let q := (p.reverse.dropWhile (fun c => c = '/')).reverse
    if q = [] then "/".data
    else (q.reverse.takeWhile (fun c => c ≠ '/')).reverse

/-- Updater.GenerateFileName: the config pattern when a config is present,
otherwise the hard-coded default shape. -/
def generateFileNameU (cfg : Option Config) (version : Str) : Str :=
  match cfg with
  | some c => c.generateFileName version
  | none => "Cursor-".data ++ version ++ "-x86_64.AppImage".data

/-- Candidate filter of Updater.GetLocalVersion's size-matching fallback:
with a config, the configured pattern must contain the version placeholder
and the filename must contain a dot; without a config, the filename must
carry the default head and tail. -/
def candidateOk (cfg : Option Config) (name : Str) : Bool :=
  match cfg with
  | some c =>
    containsSub "<version>".data c.fileNamePattern && name.contains '.'
  | none =>
    decide (name.take 7 = "Cursor-".data ∧
      name.drop (name.length - 16) = "-x86_64.AppImage".data)

/-- Directory scan of Updater.GetLocalVersion: directories are skipped,
candidates failing the filter are skipped, and the first candidate whose
size equals the reference size has its name's extracted version returned
(which may itself be empty). -/
def scanFiles (cfg : Option Config) (sz : Nat) : List FileEntry → Str
  | [] => []
  | e :: rest =>
    if e.isDir then scanFiles cfg sz rest
    else if ¬ candidateOk cfg e.name then scanFiles cfg sz rest
    else if e.size = sz then semverFromName e.name
    else scanFiles cfg sz rest

/-- Updater.GetLocalVersion: an absent reference is the unknown version; a
symbolic link yields the version extracted from its target's base name; a
regular file triggers the size-matching directory scan. -/
def getLocalVersion (cfg : Option Config) (w : World) : Str :=
  match w.ref with
  | RefState.absent => []
  | RefState.symlink target => semverFromName (baseName target)
  | RefState.regular sz => scanFiles cfg sz w.files

/-- Errors surfaced by Updater.SwitchToVersion. -/
inductive SwitchErr where
  | versionFileNotFound (filename : Str)
deriving DecidableEq, Repr

/-- Updater.SwitchToVersion: the artifact file named for the version must
already exist; any existing current-reference is removed and a fresh
symbolic link to the artifact is created (the link target's base name is
the artifact filename). -/
def switchToVersion (cfg : Option Config) (version : Str) (w : World) :
    Except SwitchErr World :=
  let filename := generateFileNameU cfg version
  if w.files.any (fun f => f.name = filename) then
    Except.ok { w with ref := RefState.symlink filename }
  else
    Except.error (SwitchErr.versionFileNotFound filename)

/-- Updater.CheckForUpdates given the resolved remote version: an unknown
local version always needs an update, otherwise the LessThan comparison
decides. -/
def checkForUpdates (cfg : Option Config) (remote : Str) (w : World) :
    Bool × Str :=
  let lv := getLocalVersion cfg w
  if lv = [] then (true, remote) else (lessThan lv remote, remote)

/-- Updater.DownloadCursor: resolve the remote version, build the artifact
name, skip the network entirely when the file already exists, and
otherwise perform the GET, creating the artifact file with the transferred
size. -/
def downloadCursor (cfg : Option Config) (env : Env) (w : World) :
    Except Unit (Str × World) :=
  match env.remote with
  | Except.error e => Except.error e
  | Except.ok remoteV =>
    let filename := generateFileNameU cfg remoteV
    if w.files.any (fun f => f.name = filename) then
      Except.ok (filename, w)
    else
      Except.ok (filename,
        { w with
          files := w.files ++ [⟨filename, false, env.fetchedSize⟩]
          networkGets := w.networkGets + 1 })

/-- Terminal outcomes of the CLI actions; the no-op "already current"
report is a constructor distinct from a successful download-and-switch. -/
inductive Outcome where
  | alreadyCurrent (localV : Str)
  | updated (v : Str)
  | forced (v : Str)
  | switched (v : Str)
deriving DecidableEq, Repr

/-- Errors surfaced by the CLI actions. -/
inductive CliErr where
  | remoteFailed
  | invalidFormat (v : Str)
  | switchFailed (e : SwitchErr)
deriving DecidableEq, Repr

/-- updateVersionFile from internal/cli/run.go: rewrite the version file
(failures are only warnings). -/
def updateVersionFile (v : Str) (w : World) : World :=
  { w with versionFile := some ("VERSION=".data ++ v ++ ['\n']) }

/-- Ledger.Append as invoked by the CLI: when the environment makes the
append fail, the ledger file is unchanged and only a warning is printed. -/
def tryAppend (ok : Bool) (file : Option Str) (e : Entry) : Option Str :=
  if ok then ledgerAppend file e else file

/-- executeUpdate from internal/cli/run.go: check for updates; stop with
the distinct already-current report when none is needed; otherwise
download, digest, switch, append an update-tagged ledger entry (append
failure being non-fatal), and rewrite the version file. -/
def executeUpdate (cfg : Config) (env : Env) (w : World) :
    Except CliErr Outcome × World :=
  match env.remote with
  | Except.error _ => (Except.error CliErr.remoteFailed, w)
  | Except.ok remoteV =>
    match checkForUpdates (some cfg) remoteV w with
    | (false, _) =>
      (Except.ok (Outcome.alreadyCurrent (getLocalVersion (some cfg) w)), w)
    | (true, _) =>
      match downloadCursor (some cfg) env w with
      | Except.error _ => (Except.error CliErr.remoteFailed, w)
      | Except.ok (filename, w1) =>
        match switchToVersion (some cfg) remoteV w1 with
        | Except.error e => (Except.error (CliErr.switchFailed e), w1)
        | Except.ok w2 =>
          let entry : Entry :=
            ⟨env.now, remoteV, [], filename, env.digest, "update".data⟩
          let w3 := { w2 with ledger := tryAppend env.appendOk w2.ledger entry }
          (Except.ok (Outcome.updated remoteV), updateVersionFile remoteV w3)

/-- executeForce from internal/cli/run.go: resolve the remote version,
remove any existing artifact for it (tolerating absence), re-download,
digest, switch, append a force-tagged ledger entry (append failure being
non-fatal), and rewrite the version file. -/
def executeForce (cfg : Config) (env : Env) (w : World) :
    Except CliErr Outcome × World :=
  match env.remote with
  | Except.error _ => (Except.error CliErr.remoteFailed, w)
  | Except.ok remoteV =>
    let filename := generateFileNameU (some cfg) remoteV
    let w1 := { w with files := w.files.filter (fun f => ¬ f.name = filename) }
    match downloadCursor (some cfg) env w1 with
    | Except.error _ => (Except.error CliErr.remoteFailed, w1)
    | Except.ok (fn, w2) =>
      match switchToVersion (some cfg) remoteV w2 with
      | Except.error e => (Except.error (CliErr.switchFailed e), w2)
      | Except.ok w3 =>
        let entry : Entry :=
          ⟨env.now, remoteV, [], fn, env.digest, "force".data⟩
        let w4 := { w3 with ledger := tryAppend env.appendOk w3.ledger entry }
        (Except.ok (Outcome.forced remoteV), updateVersionFile remoteV w4)

/-- executeSwitch from internal/cli/run.go: the requested version must
survive the default-shape extraction check, the artifact must already be
on disk (no network access), and only then is the reference repointed, a
switch-tagged ledger entry appended (with an empty digest), and the
version file rewritten. -/
def executeSwitch (cfg : Config) (env : Env) (ver : Str) (w : World) :
    Except CliErr Outcome × World :=
  if semverFromName ("Cursor-".data ++ ver ++ "-x86_64.AppImage".data) = [] then
    (Except.error (CliErr.invalidFormat ver), w)
  else
    match switchToVersion (some cfg) ver w with
    | Except.error e => (Except.error (CliErr.switchFailed e), w)
    | Except.ok w1 =>
      let entry : Entry :=
        ⟨env.now, ver, [], generateFileNameU (some cfg) ver, [], "switch".data⟩
      let w2 := { w1 with ledger := tryAppend env.appendOk w1.ledger entry }
      (Except.ok (Outcome.switched ver), updateVersionFile ver w2)

/-! ## Specification-side definitions

The following definitions phrase spec sentences (or amended claims) as
predicates/functions to be compared with the source embeddings above. -/

/-- The custom naming pattern exercised by the repository's updater tests
and documented in the README's custom-setup example. -/
def altConfig : Config :=
  { defaultConfig with fileNamePattern := "Cursor_<version>.AppImage".data }

/-- The default-shaped artifact name for a version. -/
def defaultShapedName (v : Str) : Str :=
  "Cursor-".data ++ v ++ "-x86_64.AppImage".data

/-- Shape accepted by strconv.Atoi: an optional single leading sign, a
nonempty run of ASCII digits, and a value within the signed 64-bit range. -/
def intLike (s : Str) : Bool :=
  match s with
  | [] => false
  | c :: r =>
    let ds : Str := if c = '+' ∨ c = '-' then r else c :: r
    !ds.isEmpty && ds.all Char.isDigit &&
      (if c = '-' then decide ((digitsToNat ds : Int) ≤ 2 ^ 63)
       else decide ((digitsToNat ds : Int) ≤ 2 ^ 63 - 1))

/-- Spec's version ordering on parse results: strict lexicographic
comparison of the triples, false whenever either side failed to parse. -/
def semverLexLt : Option (Int × Int × Int) → Option (Int × Int × Int) → Prop
  | some (a1, b1, c1), some (a2, b2, c2) =>
    a1 < a2 ∨ (a1 = a2 ∧ (b1 < b2 ∨ (b1 = b2 ∧ c1 < c2)))
  | _, _ => False

/-- Local-version resolution phrased as the spec's amended claim: on the
regular-file fallback, take the head of the sublist of non-directory
size-matching candidates passing the filter and extract its version. -/
def localVersionSpec (cfg : Option Config) (w : World) : Str :=
  match w.ref with
  | RefState.absent => []
  | RefState.symlink target => semverFromName (baseName target)
  | RefState.regular sz =>
    match w.files.filter
        (fun e => !e.isDir && candidateOk cfg e.name && e.size == sz) with
    | [] => []
    | e :: _ => semverFromName e.name

/-- A ledger line the spec calls malformed: it does not split into exactly
six tab-separated fields, or its first field fails RFC 3339 parsing. -/
def malformedLine (l : Str) : Prop :=
  match splitOnC '\t' (trimGo l) with
  | [a, _, _, _, _, _] => parseRFC3339 a = none
  | _ => True

/-- Absence of the two field-breaking characters of the TSV format. -/
def noTabNl (s : Str) : Prop := ('\t' : Char) ∉ s ∧ ('\n' : Char) ∉ s

/-- Timestamps exactly representable by the ledger's second-precision
RFC 3339 rendering: whole seconds from 1970-01-01T00:00:00Z up to but not
including year 10000. -/
def tsRepresentable (t : Int) : Prop :=
  0 ≤ t ∧ t < 253402300800 * 1000000000 ∧ t % 1000000000 = 0

/-- Entries whose rendered ledger line reads back unchanged: no tabs or
newlines inside fields, an action that is nonempty and does not end in
trim-removed whitespace, and a representable timestamp. -/
def goodEntry (e : Entry) : Prop :=
  noTabNl e.version ∧ noTabNl e.internalID ∧ noTabNl e.filename ∧
  noTabNl e.sha256 ∧ noTabNl e.action ∧ e.action ≠ [] ∧
  isSpaceGo (e.action.getLastD 'x') = false ∧ tsRepresentable e.timestamp

instance goodEntryDec : DecidablePred goodEntry := fun e => by
  unfold goodEntry noTabNl tsRepresentable
  infer_instance

/-! ## Concrete fixtures used by counterexamples and witnesses -/

/-- An empty filesystem: no artifacts, no current reference, no ledger. -/
def w0 : World := ⟨[], RefState.absent, none, none, 0⟩

/-- Degraded installation: the current reference is a plain file of 100
bytes, and the directory holds a stray dot-bearing file of the same size
listed before the pattern-named artifact. -/
def w2c : World :=
  ⟨[⟨"foo.txt".data, false, 100⟩,
    ⟨"Cursor-1.2.3-x86_64.AppImage".data, false, 100⟩],
   RefState.regular 100, none, none, 0⟩

/-- A directory holding an artifact named for the two-component version
1.2. -/
def w4c : World :=
  ⟨[⟨"Cursor-1.2-x86_64.AppImage".data, false, 100⟩],
   RefState.absent, none, none, 0⟩

/-- A current reference pointing at the 1.4.5 artifact. -/
def w6 : World :=
  ⟨[⟨"Cursor-1.4.5-x86_64.AppImage".data, false, 100⟩],
   RefState.symlink "Cursor-1.4.5-x86_64.AppImage".data, none, none, 0⟩

/-- Environment resolving the remote version to 1.4.5, ledger appends
succeeding. -/
def env0 : Env :=
  ⟨Except.ok "1.4.5".data, 100, "abc123def456".data, true,
   1704110400 * 1000000000⟩

/-- Environment resolving the remote version to 1.4.5, ledger appends
failing. -/
def env9 : Env :=
  ⟨Except.ok "1.4.5".data, 100, "abc123def456".data, false,
   1704110400 * 1000000000⟩

/-- The first sample entry of the repository's ledger tests
(2024-01-01T12:00:00Z). -/
def e1 : Entry :=
  ⟨1704110400 * 1000000000, "1.0.0".data, "12345".data,
   "Cursor-1.0.0-x86_64.AppImage".data, "abc123def456".data, "download".data⟩

/-- The second sample entry of the repository's ledger tests
(2024-01-02T12:00:00Z). -/
def e2 : Entry :=
  ⟨1704196800 * 1000000000, "1.1.0".data, "67890".data,
   "Cursor-1.1.0-x86_64.AppImage".data, "def456ghi789".data, "download".data⟩

/-- An entry whose filename field contains a tab character. -/
def eTab : Entry :=
  ⟨1704110400 * 1000000000, "1.0.0".data, "12345".data,
   ['a', '\t', 'b'], "abc".data, "download".data⟩

/-- A third entry sharing the timestamp of the second sample entry but
carrying a different version, exercising the tie-breaking rule. -/
def e3 : Entry :=
  ⟨1704196800 * 1000000000, "2.0.0".data, "99999".data,
   "Cursor-2.0.0-x86_64.AppImage".data, "fff".data, "download".data⟩

/-- A ledger file holding the later-stamped entry first, then an earlier
one, then a tie with the first. -/
def ledger10 : Option Str := [e2, e1, e3].foldl ledgerAppend none

/-! ## Theorems: calendar arithmetic -/

/-- Key invariant of the year-of-era computation: the day-of-year offset
stays in [0, 365], and when it reaches 365 either the era ends or the next
year boundary lies strictly above. -/
theorem civil_yoe_inv (doe yoe : Int)
    (hd0 : 0 ≤ doe) (hd1 : doe < 146097)
    (hyoe : (doe - doe / 1460 + doe / 36524 - doe / 146096) / 365 = yoe) :
    0 ≤ doe - (365 * yoe + yoe / 4 - yoe / 100) ∧
    doe - (365 * yoe + yoe / 4 - yoe / 100) ≤ 365 ∧
    (yoe = 399 ∨ doe < 365 * (yoe + 1) + (yoe + 1) / 4 - (yoe + 1) / 100) := by
  set c := doe / 1460 with hc
  have hc0 : 0 ≤ c := by omega
  have hc1 : c ≤ 100 := by omega
  interval_cases c <;> first
    | omega
    | (have hd4 : doe / 36524 = 0 ∨ doe / 36524 = 1 ∨ doe / 36524 = 2 ∨
          doe / 36524 = 3 := by omega
       rcases hd4 with h4 | h4 | h4 | h4 <;> rw [h4] at hyoe <;> omega)

/-- Round-trip and validity of the civil-date decomposition on the day
range of years 1970 to 9999. -/
theorem civil_inv (z y m d : Int) (h0 : 0 ≤ z) (h1 : z ≤ 2932896)
    (hcf : civilFromDays z = (y, m, d)) :
    daysFromCivil y m d = z ∧ 1 ≤ m ∧ m ≤ 12 ∧ 1 ≤ d ∧ d ≤ daysInMonth y m ∧
    1970 ≤ y ∧ y ≤ 9999 := by
  simp only [civilFromDays] at hcf
  generalize hz' : z + 719468 = z' at hcf
  generalize hera : z' / 146097 = era at hcf
  generalize hdoe : z' - era * 146097 = doe at hcf
  generalize hq1 : doe / 1460 = q1 at hcf
  generalize hq2 : doe / 36524 = q2 at hcf
  generalize hq3 : doe / 146096 = q3 at hcf
  generalize hyoe : (doe - q1 + q2 - q3) / 365 = yoe at hcf
  generalize hq4 : yoe / 4 = q4 at hcf
  generalize hq5 : yoe / 100 = q5 at hcf
  generalize hdoy : doe - (365 * yoe + q4 - q5) = doy at hcf
  generalize hmp : (5 * doy + 2) / 153 = mp at hcf
  generalize hq6 : (153 * mp + 2) / 5 = q6 at hcf
  have hera0 : 4 ≤ era := by omega
  have hera1 : era ≤ 24 := by omega
  have hdoe0 : 0 ≤ doe := by omega
  have hdoe1 : doe < 146097 := by omega
  have hyoe' : (doe - doe / 1460 + doe / 36524 - doe / 146096) / 365 = yoe := by
    rw [hq1, hq2, hq3]; exact hyoe
  have hyoe0 : 0 ≤ yoe := by omega
  have hyoe1 : yoe ≤ 399 := by omega
  have htight := civil_yoe_inv doe yoe hdoe0 hdoe1 hyoe'
  rw [hq4, hq5] at htight
  have hdoy0 : 0 ≤ doy := by omega
  have hdoy1 : doy ≤ 365 := by omega
  have hmp0 : 0 ≤ mp := by omega
  have hmp1 : mp ≤ 11 := by omega
  have hfeb : doy = 365 →
      (yoe + 1) % 4 = 0 ∧ ((yoe + 1) % 100 ≠ 0 ∨ (yoe + 1) % 400 = 0) := by
    intro h365
    have hge : (yoe + 1) / 4 - q4 = 0 ∨ (yoe + 1) / 4 - q4 = 1 := by omega
    have hgi : (yoe + 1) / 100 - q5 = 0 ∨ (yoe + 1) / 100 - q5 = 1 := by omega
    rcases htight.2.2 with h399 | hlt
    · constructor <;> omega
    · rcases hge with hge | hge <;> rcases hgi with hgi | hgi <;>
        constructor <;> omega
  clear htight hyoe'
  have hmp10 : mp < 10 ∨ 10 ≤ mp := by omega
  rcases hmp10 with hlow | hhigh
  · rw [if_pos hlow, if_neg (by omega : ¬ (mp + 3 ≤ 2))] at hcf
    obtain ⟨hy, hm, hd⟩ : yoe + era * 400 = y ∧ mp + 3 = m ∧ doy - q6 + 1 = d := by
      simpa [Prod.ext_iff] using hcf
    have hmlo : 3 ≤ m := by omega
    have hmhi : m ≤ 12 := by omega
    refine ⟨?_, by omega, hmhi, by omega, ?_, ?_, ?_⟩
    · clear hfeb h0 h1 hq1 hq2 hq3 hera hyoe hmp
      simp only [daysFromCivil]
      rw [if_neg (by omega : ¬ m ≤ 2)]
      have h400 : y / 400 = era := by omega
      rw [h400]
      have hsub : y - era * 400 = yoe := by omega
      rw [hsub, hq4, hq5]
      have h12 : (m + 9) % 12 = mp := by omega
      rw [h12, hq6]
      clear h400 hsub h12 hq4 hq5 hq6
      omega
    · clear hera hq1 hq2 hq3 h0 h1 hera0 hera1 hz' hdoe
      simp only [daysInMonth]
      rw [if_neg (by omega : ¬ m = 2)]
      interval_cases m <;> norm_num <;> omega
    · omega
    · omega
  · rw [if_neg (by omega : ¬ mp < 10), if_pos (by omega : mp - 9 ≤ 2)] at hcf
    obtain ⟨hy, hm, hd⟩ :
        yoe + era * 400 + 1 = y ∧ mp - 9 = m ∧ doy - q6 + 1 = d := by
      simpa [Prod.ext_iff] using hcf
    have hmlo : 1 ≤ m := by omega
    have hmhi : m ≤ 2 := by omega
    refine ⟨?_, hmlo, by omega, by omega, ?_, ?_, ?_⟩
    · clear hfeb h0 h1 hq1 hq2 hq3 hera hyoe hmp
      simp only [daysFromCivil]
      rw [if_pos (by omega : m ≤ 2)]
      have h400 : (y - 1) / 400 = era := by omega
      rw [h400]
      have hsub : y - 1 - era * 400 = yoe := by omega
      rw [hsub, hq4, hq5]
      have h12 : (m + 9) % 12 = mp := by omega
      rw [h12, hq6]
      clear h400 hsub h12 hq4 hq5 hq6
      omega
    · clear hera hq1 hq2 hq3 hera0 hera1 hz' hdoe
      simp only [daysInMonth]
      have hdoy365 : doy = 365 ∨ doy ≤ 364 := by omega
      have hm12 : m = 1 ∨ m = 2 := by omega
      rcases hm12 with hm1 | hm2
      · rw [if_neg (by omega), if_neg (by omega)]
        omega
      · rw [if_pos hm2]
        rcases hdoy365 with h365 | hle
        · have := hfeb h365
          rw [if_pos (by omega)]
          omega
        · split_ifs <;> omega
    · omega
    · omega


/-! ## Theorems: decimal rendering -/

theorem digitsToNat_append_digit (l : Str) (c : Char) :
    digitsToNat (l ++ [c]) = 10 * digitsToNat l + (c.toNat - 48) := by
  simp [digitsToNat, List.foldl_append]

theorem digitChar_val (m : Nat) (h : m < 10) :
    (Nat.digitChar m).toNat - 48 = m ∧ (Nat.digitChar m).isDigit = true := by
  interval_cases m <;> decide

theorem natDigitsAux_fuel (f1 : Nat) :
    ∀ f2 n, n < f1 → n < f2 → natDigitsAux f1 n = natDigitsAux f2 n := by
  induction f1 with
  | zero => omega
  | succ f1 ih =>
    intro f2 n h1 h2
    rcases f2 with _ | f2
    · omega
    · rw [natDigitsAux, natDigitsAux]
      split
      · rfl
      · rename_i h10
        rw [ih f2 (n / 10) (by omega) (by omega)]

theorem natDigits_eq (n : Nat) :
    natDigits n = if n < 10 then [Nat.digitChar n]
      else natDigits (n / 10) ++ [Nat.digitChar (n % 10)] := by
  rw [natDigits, natDigits, natDigitsAux]
  split
  · rfl
  · rename_i h10
    rw [natDigitsAux_fuel n (n / 10 + 1) (n / 10) (by omega) (by omega)]

theorem natDigits_val (n : Nat) : digitsToNat (natDigits n) = n := by
  induction n using Nat.strong_induction_on with
  | _ n ih =>
    rw [natDigits_eq]
    split
    · rename_i h
      interval_cases n <;> decide
    · rename_i h
      rw [digitsToNat_append_digit, ih (n / 10) (by omega),
        (digitChar_val (n % 10) (by omega)).1]
      omega

theorem natDigits_digits (n : Nat) : ∀ c ∈ natDigits n, c.isDigit = true := by
  induction n using Nat.strong_induction_on with
  | _ n ih =>
    rw [natDigits_eq]
    split
    · rename_i h
      interval_cases n <;> decide
    · rename_i h
      intro c hc
      rcases List.mem_append.1 hc with hc | hc
      · exact ih (n / 10) (by omega) c hc
      · rcases List.mem_singleton.1 hc with rfl
        exact (digitChar_val (n % 10) (by omega)).2

theorem natDigits_len (k n : Nat) (hk : 1 ≤ k) (hn : n < 10 ^ k) :
    (natDigits n).length ≤ k := by
  induction k generalizing n with
  | zero => omega
  | succ k ih =>
    rw [natDigits_eq]
    split
    · simp
    · rename_i h
      have hk1 : 1 ≤ k := by
        rcases Nat.eq_or_lt_of_le hk with h1 | h1
        · exfalso
          have : n < 10 := by
            have := hn
            simp [← h1] at this
            omega
          omega
        · omega
      have : n / 10 < 10 ^ k := by
        have : 10 ^ (k + 1) = 10 ^ k * 10 := by ring
        omega
      have := ih (n / 10) hk1 this
      simp only [List.length_append, List.length_cons, List.length_nil]
      omega

theorem digitsToNat_pad_zeros (k : Nat) (l : Str) :
    digitsToNat (List.replicate k '0' ++ l) = digitsToNat l := by
  induction k with
  | zero => simp
  | succ k ih =>
    have : List.replicate (k + 1) '0' ++ l = '0' :: (List.replicate k '0' ++ l) := by
      simp [List.replicate_succ]
    rw [this]
    simp only [digitsToNat, List.foldl_cons] at ih ⊢
    simpa using ih

theorem padNat_spec (w n : Nat) (hw : 1 ≤ w) (hn : n < 10 ^ w) :
    (padNat w n).length = w ∧ (∀ c ∈ padNat w n, c.isDigit = true) ∧
    digitsToNat (padNat w n) = n := by
  have hlen := natDigits_len w n hw hn
  refine ⟨?_, ?_, ?_⟩
  · simp only [padNat, List.length_append, List.length_replicate]
    omega
  · intro c hc
    rcases List.mem_append.1 hc with hc | hc
    · rcases List.eq_of_mem_replicate hc with rfl
      decide
    · exact natDigits_digits n c hc
  · rw [padNat, digitsToNat_pad_zeros, natDigits_val]

theorem readDigits_exact (k n : Nat) (hk : 1 ≤ k) (hn : n < 10 ^ k)
    (rest : Str) :
    readDigits k (padNat k n ++ rest) = some (n, rest) := by
  obtain ⟨hlen, hdig, hval⟩ := padNat_spec k n hk hn
  have htake : (padNat k n ++ rest).take k = padNat k n := by
    have h := List.take_left (padNat k n) rest
    rw [hlen] at h
    exact h
  have hdrop : (padNat k n ++ rest).drop k = rest := by
    have h := List.drop_left (padNat k n) rest
    rw [hlen] at h
    exact h
  rw [readDigits, htake, hdrop, if_pos ⟨hlen, List.all_eq_true.2 hdig⟩, hval]


theorem padInt_nonneg (w : Nat) (v : Int) (h : 0 ≤ v) :
    padInt w v = padNat w v.toNat := by
  rw [padInt, if_neg (by omega)]

/-- Formatting a representable timestamp and parsing the result recovers
the timestamp exactly. -/
theorem rfc3339_fmt_parse (t : Int) (ht : tsRepresentable t) :
    parseRFC3339 (formatRFC3339 t) = some t := by
  obtain ⟨ht0, ht1, ht2⟩ := ht
  simp only [formatRFC3339]
  set secs := t / 1000000000 with hsecs
  set z := secs / 86400 with hz
  set sod := secs % 86400 with hsod
  have hz0 : 0 ≤ z := by omega
  have hz1 : z ≤ 2932896 := by omega
  have hsod0 : 0 ≤ sod := by omega
  have hsod1 : sod < 86400 := by omega
  rcases hcf : civilFromDays z with ⟨y, m, d⟩
  obtain ⟨hid, hm1, hm2, hd1, hd2, hy1, hy2⟩ := civil_inv z y m d hz0 hz1 hcf
  dsimp only
  rw [padInt_nonneg 4 y (by omega), padInt_nonneg 2 m (by omega),
    padInt_nonneg 2 d (by omega), padInt_nonneg 2 (sod / 3600) (by omega),
    padInt_nonneg 2 ((sod % 3600) / 60) (by omega),
    padInt_nonneg 2 (sod % 60) (by omega)]
  have hdim : daysInMonth y m ≤ 31 := by
    simp only [daysInMonth]
    split_ifs <;> omega
  have hy' : y.toNat < 10 ^ 4 := by omega
  have hm' : m.toNat < 10 ^ 2 := by omega
  have hd' : d.toNat < 10 ^ 2 := by omega
  have hh' : (sod / 3600).toNat < 10 ^ 2 := by omega
  have hmi' : ((sod % 3600) / 60).toNat < 10 ^ 2 := by omega
  have hs' : (sod % 60).toNat < 10 ^ 2 := by omega
  simp only [parseRFC3339,
    readDigits_exact 4 y.toNat (by norm_num) hy',
    readDigits_exact 2 m.toNat (by norm_num) hm',
    readDigits_exact 2 d.toNat (by norm_num) hd',
    readDigits_exact 2 (sod / 3600).toNat (by norm_num) hh',
    readDigits_exact 2 ((sod % 3600) / 60).toNat (by norm_num) hmi',
    readDigits_exact 2 (sod % 60).toNat (by norm_num) hs']
  have hfrac : parseFrac ['Z'] = some (0, (['Z'] : Str)) := by decide
  have hzone : parseZone ['Z'] = some (0, ([] : Str)) := by decide
  rw [hfrac]
  dsimp only
  rw [hzone]
  dsimp only
  have hyc : (y.toNat : Int) = y := by omega
  have hmc : (m.toNat : Int) = m := by omega
  have hdc : (d.toNat : Int) = d := by omega
  rw [hyc, hmc, hdc]
  rw [if_pos ⟨rfl, by omega, by omega, by omega, hd2, by omega, by omega,
    by omega⟩]
  rw [hid]
  simp only [Option.some.injEq]
  omega

/-! ## Theorems: string splitting -/

theorem splitOnC_cons (sep c : Char) (l : Str) :
    splitOnC sep (c :: l) =
      if c = sep then [] :: splitOnC sep l
      else (c :: (splitOnC sep l).headI) :: (splitOnC sep l).tail := rfl

theorem splitOnC_ne_nil (sep : Char) (l : Str) : splitOnC sep l ≠ [] := by
  induction l with
  | nil => simp [splitOnC]
  | cons c rest ih =>
    rw [splitOnC_cons]
    split <;> simp

theorem splitOnC_no_sep (sep : Char) (l : Str) (h : sep ∉ l) :
    splitOnC sep l = [l] := by
  induction l with
  | nil => rfl
  | cons c rest ih =>
    have hc : ¬ c = sep := by
      intro hc
      exact h (hc ▸ List.mem_cons_self c rest)
    have hrest : sep ∉ rest := fun hm => h (List.mem_cons_of_mem c hm)
    rw [splitOnC_cons, if_neg hc, ih hrest]
    rfl

theorem splitOnC_append_cons (sep : Char) (b rest : Str) (h : sep ∉ b) :
    splitOnC sep (b ++ sep :: rest) = b :: splitOnC sep rest := by
  induction b with
  | nil => simp [splitOnC_cons]
  | cons c b ih =>
    have hc : ¬ c = sep := by
      intro hc
      exact h (hc ▸ List.mem_cons_self c b)
    have hb : sep ∉ b := fun hm => h (List.mem_cons_of_mem c hm)
    rw [List.cons_append, splitOnC_cons, if_neg hc, ih hb]
    rfl

theorem take_append_exact (l1 l2 : Str) (n : Nat) (h : l1.length = n) :
    (l1 ++ l2).take n = l1 := by
  subst h
  exact List.take_left _ _

theorem drop_append_exact (l1 l2 : Str) (n : Nat) (h : l1.length = n) :
    (l1 ++ l2).drop n = l2 := by
  subst h
  exact List.drop_left _ _

/-! ## Theorems: version extraction (claim C1) -/

theorem semverFromName_shaped (v : Str) :
    semverFromName (defaultShapedName v) =
      if versionLike v = true then v else [] := by
  rw [defaultShapedName, List.append_assoc]
  have hne : ("Cursor-".data ++ (v ++ "-x86_64.AppImage".data) : Str) ≠ [] := by
    simp
  rw [semverFromName, if_neg hne]
  have htake : ("Cursor-".data ++ (v ++ "-x86_64.AppImage".data) : Str).take
      ("Cursor-".data : Str).length = "Cursor-".data :=
    take_append_exact _ _ _ rfl
  have hlen : ("Cursor-".data ++ (v ++ "-x86_64.AppImage".data) : Str).length -
      ("-x86_64.AppImage".data : Str).length =
      ("Cursor-".data ++ v : Str).length := by
    simp
  have hdrop : ("Cursor-".data ++ (v ++ "-x86_64.AppImage".data) : Str).drop
      (("Cursor-".data ++ (v ++ "-x86_64.AppImage".data) : Str).length -
        ("-x86_64.AppImage".data : Str).length) = "-x86_64.AppImage".data := by
    rw [hlen, ← List.append_assoc]
    exact drop_append_exact _ _ _ rfl
  rw [if_pos ⟨htake, hdrop⟩]
  have hmid : ("Cursor-".data ++ (v ++ "-x86_64.AppImage".data) : Str).drop
      ("Cursor-".data : Str).length = v ++ "-x86_64.AppImage".data :=
    drop_append_exact _ _ _ rfl
  rw [hmid]
  have hlen2 : (v ++ "-x86_64.AppImage".data : Str).length -
      ("-x86_64.AppImage".data : Str).length = v.length := by
    simp
  rw [hlen2, List.take_left]

theorem generateFileName_default (v : Str) :
    defaultConfig.generateFileName v = defaultShapedName v := by
  rfl

theorem generateFileName_alt (v : Str) :
    altConfig.generateFileName v = "Cursor_".data ++ (v ++ ".AppImage".data) := by
  rfl

theorem semverFromName_alt (v : Str) :
    semverFromName (altConfig.generateFileName v) = [] := by
  rw [generateFileName_alt]
  have hne : ("Cursor_".data ++ (v ++ ".AppImage".data) : Str) ≠ [] := by simp
  rw [semverFromName, if_neg hne]
  rw [if_neg]
  intro hcontra
  have htake : ("Cursor_".data ++ (v ++ ".AppImage".data) : Str).take
      ("Cursor-".data : Str).length = "Cursor_".data :=
    take_append_exact _ _ _ rfl
  rw [htake] at hcontra
  exact absurd hcontra.1 (by decide)

/-- C1: the claim that version extraction honours the configured naming
pattern fails: a filename generated from the documented custom pattern
with version 1.2.3 (so its literal surround matches that pattern) yields
NotFound instead of 1.2.3. -/
theorem C1_counterexample :
    altConfig.generateFileName "1.2.3".data = "Cursor_1.2.3.AppImage".data ∧
    semverFromName (altConfig.generateFileName "1.2.3".data) = [] ∧
    ("1.2.3".data : Str) ≠ [] := by decide

/-- C1 (amended): SemverFromName ignores the configured pattern and
matches only the hard-coded default shape: for every version of the
digit-group shape, extraction succeeds on the filename generated from the
default pattern and returns NotFound on the filename generated from the
custom Cursor_ pattern. -/
theorem C1_amended_extraction (v : Str) (hv : versionLike v = true) :
    semverFromName (defaultConfig.generateFileName v) = v ∧
    semverFromName (altConfig.generateFileName v) = [] := by
  constructor
  · rw [generateFileName_default, semverFromName_shaped, if_pos hv]
  · exact semverFromName_alt v

/-- C1 witness: the amended theorem applied at version 1.4.5. -/
theorem C1_witness :
    versionLike "1.4.5".data = true ∧
    semverFromName (defaultConfig.generateFileName "1.4.5".data) =
      "1.4.5".data ∧
    semverFromName (altConfig.generateFileName "1.4.5".data) = [] :=
  ⟨by decide, (C1_amended_extraction "1.4.5".data (by decide)).1,
    (C1_amended_extraction "1.4.5".data (by decide)).2⟩

/-! ## Theorems: version parsing (claim C3) -/

theorem atoi_isSome (s : Str) : (atoi s).isSome = intLike s := by
  rcases s with _ | ⟨c, r⟩
  · rfl
  · by_cases h2 : c = '-' <;> by_cases h1 : c = '+' ∨ c = '-' <;>
      simp only [atoi, intLike, h1, h2, if_pos, if_neg, if_true, if_false] <;>
      split_ifs <;> simp_all <;>
      first
        | omega
        | (rename_i hor
           intro hne hall
           rcases hor with h | ⟨x, hx, hbad⟩
           · exact absurd h hne
           · simp [hall x hx] at hbad)

/-- C3: the claim that signed components are rejected fails: strconv.Atoi
accepts a single leading plus or minus sign, so ParseSemver silently
accepts signed components. -/
theorem C3_counterexample :
    parseSemver "+1.2.3".data = some (1, 2, 3) ∧
    parseSemver "1.-2.3".data = some (1, -2, 3) := by decide

/-- C3 (amended): ParseSemver succeeds exactly when the string splits into
exactly three dot-separated components, each an optionally sign-prefixed
nonempty run of ASCII digits whose value fits in a signed 64-bit integer;
every other shape is rejected. -/
theorem C3_parse_characterization (s : Str) :
    (parseSemver s).isSome = true ↔
      ∃ a b c, splitOnC '.' s = [a, b, c] ∧ intLike a = true ∧
        intLike b = true ∧ intLike c = true := by
  by_cases hs : s = []
  · subst hs
    constructor
    · intro h
      simp [parseSemver] at h
    · rintro ⟨a, b, c, h, -⟩
      simp [splitOnC] at h
  · simp only [parseSemver, if_neg hs]
    rcases h : splitOnC '.' s with _ | ⟨a, t⟩
    · exact absurd h (splitOnC_ne_nil _ _)
    · rcases t with _ | ⟨b, t⟩
      · simp [h]
      · rcases t with _ | ⟨c, t⟩
        · simp [h]
        · rcases t with _ | ⟨e, t⟩
          · have hA := atoi_isSome a
            have hB := atoi_isSome b
            have hC := atoi_isSome c
            rcases ha : atoi a with _ | x <;> rcases hb : atoi b with _ | y <;>
              rcases hc : atoi c with _ | z <;>
              rw [ha] at hA <;> rw [hb] at hB <;> rw [hc] at hC <;>
              simp_all <;>
              exact ⟨a, b, c, ⟨rfl, rfl, rfl⟩, hA, hB, hC⟩
          · simp [h]

/-! ## Theorems: version comparison (claims C5) -/

theorem parseSemver_nil : parseSemver [] = none := rfl

theorem semverLexLt_none_left (o : Option (Int × Int × Int)) :
    ¬ semverLexLt none o := by
  rcases o with _ | ⟨⟨x, y, z⟩⟩ <;> exact id

theorem semverLexLt_none_right (o : Option (Int × Int × Int)) :
    ¬ semverLexLt o none := by
  rcases o with _ | ⟨⟨x, y, z⟩⟩ <;> exact id

theorem lessThan_iff (v1 v2 : Str) :
    lessThan v1 v2 = true ↔ semverLexLt (parseSemver v1) (parseSemver v2) := by
  rw [lessThan]
  split_ifs with hemp
  · constructor
    · intro h
      simp at h
    · intro h
      exfalso
      rcases hemp with he | he
      · rw [he, parseSemver_nil] at h
        exact semverLexLt_none_left _ h
      · rw [he, parseSemver_nil] at h
        exact semverLexLt_none_right _ h
  · rcases h1 : parseSemver v1 with _ | ⟨⟨a1, b1, c1⟩⟩ <;>
      rcases h2 : parseSemver v2 with _ | ⟨⟨a2, b2, c2⟩⟩
    · exact iff_of_false (by simp) (semverLexLt_none_left _)
    · exact iff_of_false (by simp) (semverLexLt_none_left _)
    · exact iff_of_false (by simp) (semverLexLt_none_right _)
    · show (if a1 < a2 then true
        else if a2 < a1 then false
        else if b1 < b2 then true
        else if b2 < b1 then false
        else decide (c1 < c2)) = true ↔ _
      split_ifs <;> simp [semverLexLt] <;> omega

theorem checkForUpdates_snd (cfg : Option Config) (remote : Str) (w : World) :
    (checkForUpdates cfg remote w).2 = remote := by
  rw [checkForUpdates]
  split_ifs <;> rfl

/-- C5: the update-needed decision is true exactly when the local version
is unknown or strictly below the remote version in the lexicographic
order on parsed triples; the reported remote version is returned
unchanged; and LessThan returns false (not an error) whenever either side
fails to parse. -/
theorem C5_decision (cfg : Option Config) (remote : Str) (w : World) :
    ((checkForUpdates cfg remote w).1 = true ↔
      getLocalVersion cfg w = [] ∨
        semverLexLt (parseSemver (getLocalVersion cfg w)) (parseSemver remote)) ∧
    (checkForUpdates cfg remote w).2 = remote ∧
    ∀ v1 v2 : Str,
      (parseSemver v1 = none ∨ parseSemver v2 = none) → lessThan v1 v2 = false := by
  refine ⟨?_, checkForUpdates_snd cfg remote w, ?_⟩
  · rw [checkForUpdates]
    by_cases hl : getLocalVersion cfg w = []
    · simp [hl]
    · rw [if_neg hl]
      constructor
      · intro h
        exact Or.inr ((lessThan_iff _ _).1 h)
      · rintro (h | h)
        · exact absurd h hl
        · exact (lessThan_iff _ _).2 h
  · intro v1 v2 h
    apply Bool.eq_false_iff.mpr
    intro htrue
    have hlt := (lessThan_iff v1 v2).1 htrue
    rcases h with h | h
    · rw [h] at hlt
      exact semverLexLt_none_left _ hlt
    · rw [h] at hlt
      exact semverLexLt_none_right _ hlt

/-- C5 witness: the decision theorem applied on a concrete world, and the
malformed-operand conjunct discharged at a non-version string. -/
theorem C5_witness :
    (checkForUpdates (some defaultConfig) "1.4.5".data w0).1 = true ∧
    lessThan "not-a-version".data "1.2.3".data = false :=
  ⟨((C5_decision (some defaultConfig) "1.4.5".data w0).1).2 (Or.inl (by decide)),
   (C5_decision (some defaultConfig) "1.2.3".data w0).2.2
     "not-a-version".data "1.2.3".data (Or.inl (by decide))⟩

/-! ## Theorems: local-version resolution (claim C2) -/

theorem scanFiles_eq_filter (cfg : Option Config) (sz : Nat) (fs : List FileEntry) :
    scanFiles cfg sz fs =
      match fs.filter
          (fun e => !e.isDir && candidateOk cfg e.name && e.size == sz) with
      | [] => []
      | e :: _ => semverFromName e.name := by
  induction fs with
  | nil => rfl
  | cons e rest ih =>
    by_cases h1 : e.isDir = true <;> by_cases h2 : candidateOk cfg e.name = true <;>
      by_cases h3 : e.size = sz <;>
      simp [scanFiles, List.filter_cons, h1, h2, h3, ih]

/-- C2: the claim fails on the code: with a config present the candidate
filter only requires the filename to contain a dot, so a stray same-size
file that precedes the pattern-named artifact in listing order makes
GetLocalVersion return unknown even though a size-matching file matching
the configured naming convention (with version 1.2.3) is in the listing. -/
theorem C2_counterexample :
    getLocalVersion (some defaultConfig) w2c = [] ∧
    w2c.ref = RefState.regular 100 ∧
    (⟨"Cursor-1.2.3-x86_64.AppImage".data, false, 100⟩ : FileEntry) ∈ w2c.files ∧
    "Cursor-1.2.3-x86_64.AppImage".data =
      defaultConfig.generateFileName "1.2.3".data ∧
    semverFromName "Cursor-1.2.3-x86_64.AppImage".data = "1.2.3".data ∧
    ("1.2.3".data : Str) ≠ [] := by decide

/-- C2 (amended): GetLocalVersion returns unknown for an absent reference,
the extraction from the link target's base name for a symlink, and
otherwise the extraction applied to the first non-directory, size-matching
entry passing the weak candidate filter (with a config: pattern contains
the placeholder and the name contains a dot) — a value that may itself be
unknown — or unknown when no entry passes. -/
theorem C2_scan_equivalence (cfg : Option Config) (w : World) :
    getLocalVersion cfg w = localVersionSpec cfg w := by
  rcases w with ⟨files, ref, ledger, vf, n⟩
  rcases ref with _ | t | sz
  · rfl
  · rfl
  · exact scanFiles_eq_filter cfg sz files

/-! ## Theorems: switch validation (claim C4) -/

/-- C4: the claim that switch requires the target to parse as a version
fails: the version 1.2 does not parse (two components), yet switch
succeeds when its artifact file exists. -/
theorem C4_counterexample :
    (executeSwitch defaultConfig env0 "1.2".data w4c).1 =
      Except.ok (Outcome.switched "1.2".data) ∧
    parseSemver "1.2".data = none := ⟨rfl, rfl⟩

/-- C4 (amended): switch succeeds only when the target version passes the
default-shape extraction check (dot-separated digit groups, not
three-component parsing) and the artifact named for it exists; when the
check passes but the artifact is absent it fails with the distinct
version-file-not-found error and leaves the whole world (reference,
ledger, artifacts) unchanged. -/
theorem C4_switch_guarded (cfg : Config) (env : Env) (ver : Str) (w : World) :
    (∀ o w', executeSwitch cfg env ver w = (Except.ok o, w') →
      semverFromName (defaultShapedName ver) ≠ [] ∧
      w.files.any (fun f => f.name = generateFileNameU (some cfg) ver) = true) ∧
    (semverFromName (defaultShapedName ver) ≠ [] →
      w.files.any (fun f => f.name = generateFileNameU (some cfg) ver) = false →
      executeSwitch cfg env ver w =
        (Except.error (CliErr.switchFailed (SwitchErr.versionFileNotFound
          (generateFileNameU (some cfg) ver))), w)) := by
  have hshape : ("Cursor-".data ++ ver ++ "-x86_64.AppImage".data : Str) =
      defaultShapedName ver := rfl
  constructor
  · intro o w' h
    rw [executeSwitch, hshape] at h
    by_cases hv : semverFromName (defaultShapedName ver) = []
    · rw [if_pos hv] at h
      exact absurd (congrArg Prod.fst h) (by simp)
    · rw [if_neg hv] at h
      by_cases ha : w.files.any (fun f => f.name = generateFileNameU (some cfg) ver) = true
      · exact ⟨hv, ha⟩
      · rw [switchToVersion, if_neg ha] at h
        exact absurd (congrArg Prod.fst h) (by simp)
  · intro hv ha
    rw [executeSwitch, hshape, if_neg hv, switchToVersion,
      if_neg (by simp [ha])]

/-- C4 witness: the spec's own scenario, switching to 9.9.9 with no such
artifact on disk: the distinct version-not-found error and an unchanged
world. -/
theorem C4_witness :
    executeSwitch defaultConfig env0 "9.9.9".data w0 =
      (Except.error (CliErr.switchFailed (SwitchErr.versionFileNotFound
        (generateFileNameU (some defaultConfig) "9.9.9".data))), w0) :=
  (C4_switch_guarded defaultConfig env0 "9.9.9".data w0).2 (by decide) (by decide)

/-! ## Theorems: the no-op update path (claim C6) and non-fatal ledger
appends (claim C9) -/

/-- C6: when no update is needed, executeUpdate returns the distinct
already-current success outcome and the world is returned unchanged — no
network GET, no ledger append, no artifact or reference mutation. -/
theorem C6_noop_frame (cfg : Config) (env : Env) (w : World) (r : Str)
    (hr : env.remote = Except.ok r)
    (hno : (checkForUpdates (some cfg) r w).1 = false) :
    executeUpdate cfg env w =
      (Except.ok (Outcome.alreadyCurrent (getLocalVersion (some cfg) w)), w) ∧
    ∀ v, Outcome.alreadyCurrent (getLocalVersion (some cfg) w) ≠
      Outcome.updated v := by
  constructor
  · have hc : checkForUpdates (some cfg) r w = (false, r) := by
      have h2 := checkForUpdates_snd (some cfg) r w
      rcases hcc : checkForUpdates (some cfg) r w with ⟨b, r'⟩
      rw [hcc] at hno h2
      simp at hno h2
      rw [hno, h2]
    rw [executeUpdate, hr]
    dsimp only
    rw [hc]
  · intro v
    simp

/-- C6 witness: a reference already at 1.4.5 with the remote also
resolving to 1.4.5 makes executeUpdate a pure no-op. -/
theorem C6_witness :
    executeUpdate defaultConfig env0 w6 =
      (Except.ok (Outcome.alreadyCurrent (getLocalVersion (some defaultConfig) w6)),
        w6) ∧
    ∀ v, Outcome.alreadyCurrent (getLocalVersion (some defaultConfig) w6) ≠
      Outcome.updated v :=
  C6_noop_frame defaultConfig env0 w6 "1.4.5".data rfl (by decide)

theorem downloadCursor_ok (cfg : Option Config) (env : Env) (w : World) (r : Str)
    (hr : env.remote = Except.ok r) :
    ∃ w1, downloadCursor cfg env w = Except.ok (generateFileNameU cfg r, w1) ∧
      w1.files.any (fun f => f.name = generateFileNameU cfg r) = true ∧
      w1.ledger = w.ledger ∧ w1.ref = w.ref := by
  rw [downloadCursor, hr]
  dsimp only
  by_cases h : w.files.any (fun f => f.name = generateFileNameU cfg r) = true
  · rw [if_pos h]
    exact ⟨w, rfl, h, rfl, rfl⟩
  · rw [if_neg h]
    refine ⟨_, rfl, ?_, rfl, rfl⟩
    simp

theorem switchToVersion_ok (cfg : Option Config) (v : Str) (w : World)
    (h : w.files.any (fun f => f.name = generateFileNameU cfg v) = true) :
    switchToVersion cfg v w =
      Except.ok { w with ref := RefState.symlink (generateFileNameU cfg v) } := by
  rw [switchToVersion, if_pos h]

/-- C9: a failing ledger append is non-fatal: both executeUpdate (on its
download path) and executeForce still report success, and the ledger file
is left exactly as it was. -/
theorem C9_append_nonfatal (cfg : Config) (env : Env) (w : World) (r : Str)
    (hr : env.remote = Except.ok r) (hfail : env.appendOk = false)
    (hup : (checkForUpdates (some cfg) r w).1 = true) :
    (∃ w', executeUpdate cfg env w = (Except.ok (Outcome.updated r), w') ∧
      w'.ledger = w.ledger) ∧
    (∃ w', executeForce cfg env w = (Except.ok (Outcome.forced r), w') ∧
      w'.ledger = w.ledger) := by
  constructor
  · have hc : checkForUpdates (some cfg) r w = (true, r) := by
      have h2 := checkForUpdates_snd (some cfg) r w
      rcases hcc : checkForUpdates (some cfg) r w with ⟨b, r'⟩
      rw [hcc] at hup h2
      simp at hup h2
      rw [hup, h2]
    obtain ⟨w1, hdl, hany, hled, href⟩ := downloadCursor_ok (some cfg) env w r hr
    rw [executeUpdate, hr]
    dsimp only
    rw [hc]
    dsimp only
    rw [hdl]
    dsimp only
    rw [switchToVersion_ok (some cfg) r w1 hany]
    dsimp only
    refine ⟨_, rfl, ?_⟩
    simp [updateVersionFile, tryAppend, hfail, hled]
  · obtain ⟨w2, hdl, hany, hled, href⟩ := downloadCursor_ok (some cfg) env
      ⟨w.files.filter (fun f => ¬ f.name = generateFileNameU (some cfg) r),
        w.ref, w.ledger, w.versionFile, w.networkGets⟩ r hr
    rw [executeForce, hr]
    dsimp only
    rw [hdl]
    dsimp only
    rw [switchToVersion_ok (some cfg) r w2 hany]
    dsimp only
    refine ⟨_, rfl, ?_⟩
    simp only [updateVersionFile, tryAppend, hfail, if_false, Bool.false_eq_true]
    rw [hled]

/-- C9 witness: with an empty local state (update needed) and appends
failing, both actions still succeed and the ledger stays absent. -/
theorem C9_witness :
    (∃ w', executeUpdate defaultConfig env9 w0 =
      (Except.ok (Outcome.updated "1.4.5".data), w') ∧ w'.ledger = w0.ledger) ∧
    (∃ w', executeForce defaultConfig env9 w0 =
      (Except.ok (Outcome.forced "1.4.5".data), w') ∧ w'.ledger = w0.ledger) :=
  C9_append_nonfatal defaultConfig env9 w0 "1.4.5".data rfl rfl (by decide)

/-! ## Theorems: ledger reading tolerance (claim C7) -/

theorem splitOnC_append_sep (sep : Char) (x y : Str) :
    splitOnC sep (x ++ sep :: y) = splitOnC sep x ++ splitOnC sep y := by
  induction x with
  | nil =>
    rw [List.nil_append, splitOnC_cons, if_pos rfl]
    rfl
  | cons c x ih =>
    rw [List.cons_append, splitOnC_cons, splitOnC_cons, ih]
    rcases hsx : splitOnC sep x with _ | ⟨g, gs⟩
    · exact absurd hsx (splitOnC_ne_nil sep x)
    · split_ifs <;> simp

theorem readLine_malformed (l : Str) (h : malformedLine l) : readLine l = none := by
  rw [readLine]
  split_ifs with ht
  · rfl
  · rw [malformedLine] at h
    rcases hsp : splitOnC '\t' (trimGo l) with _ | ⟨a, _ | ⟨b, _ | ⟨c, _ | ⟨d,
        _ | ⟨e, _ | ⟨f, _ | ⟨g, t⟩⟩⟩⟩⟩⟩⟩ <;>
      rw [hsp] at h <;> simp only [parseEntry, hsp]
    rw [h]

theorem readAll_some (c : Str) :
    readAll (some c) = (splitOnC '\n' c).filterMap readLine := rfl

/-- C7: ReadAll of an absent ledger file is the empty sequence (not an
error); a newline-free line that does not split into six tab fields or
whose first field fails RFC 3339 parsing is skipped silently, while all
content before and after it is processed unchanged; and a line parsing as
an entry contributes exactly that entry in position. -/
theorem C7_skip_tolerance :
    readAll none = [] ∧
    (∀ c1 c2 bad, ('\n' : Char) ∉ bad → malformedLine bad →
      readAll (some (c1 ++ '\n' :: (bad ++ '\n' :: c2))) =
        readAll (some c1) ++ readAll (some c2)) ∧
    (∀ c1 c2 good e, ('\n' : Char) ∉ good → readLine good = some e →
      readAll (some (c1 ++ '\n' :: (good ++ '\n' :: c2))) =
        readAll (some c1) ++ e :: readAll (some c2)) := by
  refine ⟨rfl, ?_, ?_⟩
  · intro c1 c2 bad hnl hbad
    rw [readAll_some, readAll_some, readAll_some, splitOnC_append_sep,
      splitOnC_append_sep, splitOnC_no_sep _ bad hnl, List.filterMap_append,
      List.filterMap_append]
    simp [readLine_malformed bad hbad]
  · intro c1 c2 good e hnl hgood
    rw [readAll_some, readAll_some, readAll_some, splitOnC_append_sep,
      splitOnC_append_sep, splitOnC_no_sep _ good hnl, List.filterMap_append,
      List.filterMap_append]
    simp [hgood]

/-- C7 witness: a five-field line is skipped silently between two
well-formed lines, which are both still processed. -/
theorem C7_witness :
    readAll none = [] ∧
    readAll (some ("2024-01-01T12:00:00Z\ta\tb\tc\td\te".data ++ '\n' ::
        ("x\ty\tz\tw\tv".data ++ '\n' ::
          "2024-01-02T12:00:00Z\tf\tg\th\ti\tj".data))) =
      readAll (some "2024-01-01T12:00:00Z\ta\tb\tc\td\te".data) ++
        readAll (some "2024-01-02T12:00:00Z\tf\tg\th\ti\tj".data) :=
  ⟨rfl,
   (C7_skip_tolerance.2.1 "2024-01-01T12:00:00Z\ta\tb\tc\td\te".data
     "2024-01-02T12:00:00Z\tf\tg\th\ti\tj".data
     "x\ty\tz\tw\tv".data (by decide) (by trivial))⟩

/-! ## Theorems: ledger append round-trip (claim C8) -/

theorem isSpaceGo_eq_false (c : Char)
    (h : c.isDigit = true ∨ c = '-' ∨ c = ':' ∨ c = 'T' ∨ c = 'Z') :
    isSpaceGo c = false := by
  rcases h with h | h | h | h | h
  · have h1 : c ≠ ' ' := fun hc => absurd (hc ▸ h) (by decide)
    have h2 : c ≠ '\t' := fun hc => absurd (hc ▸ h) (by decide)
    have h3 : c ≠ '\n' := fun hc => absurd (hc ▸ h) (by decide)
    have h4 : c ≠ '\x0b' := fun hc => absurd (hc ▸ h) (by decide)
    have h5 : c ≠ '\x0c' := fun hc => absurd (hc ▸ h) (by decide)
    have h6 : c ≠ '\r' := fun hc => absurd (hc ▸ h) (by decide)
    have h7 : c ≠ '\x85' := fun hc => absurd (hc ▸ h) (by decide)
    have h8 : c ≠ '\u00A0' := fun hc => absurd (hc ▸ h) (by decide)
    simp [isSpaceGo, h1, h2, h3, h4, h5, h6, h7, h8]
  · subst h; decide
  · subst h; decide
  · subst h; decide
  · subst h; decide

theorem formatRFC3339_chars (t : Int) (ht : tsRepresentable t) :
    ∀ c ∈ formatRFC3339 t,
      c.isDigit = true ∨ c = '-' ∨ c = ':' ∨ c = 'T' ∨ c = 'Z' := by
  obtain ⟨ht0, ht1, ht2⟩ := ht
  simp only [formatRFC3339]
  set secs := t / 1000000000 with hsecs
  set z := secs / 86400 with hz
  set sod := secs % 86400 with hsod
  have hz0 : 0 ≤ z := by omega
  have hz1 : z ≤ 2932896 := by omega
  have hsod0 : 0 ≤ sod := by omega
  have hsod1 : sod < 86400 := by omega
  rcases hcf : civilFromDays z with ⟨y, m, d⟩
  obtain ⟨hid, hm1, hm2, hd1, hd2, hy1, hy2⟩ := civil_inv z y m d hz0 hz1 hcf
  have hdim : daysInMonth y m ≤ 31 := by
    simp only [daysInMonth]
    split_ifs <;> omega
  dsimp only
  rw [padInt_nonneg 4 y (by omega), padInt_nonneg 2 m (by omega),
    padInt_nonneg 2 d (by omega), padInt_nonneg 2 (sod / 3600) (by omega),
    padInt_nonneg 2 ((sod % 3600) / 60) (by omega),
    padInt_nonneg 2 (sod % 60) (by omega)]
  have hp1 := (padNat_spec 4 y.toNat (by norm_num) (by omega)).2.1
  have hp2 := (padNat_spec 2 m.toNat (by norm_num) (by omega)).2.1
  have hp3 := (padNat_spec 2 d.toNat (by norm_num) (by omega)).2.1
  have hp4 := (padNat_spec 2 (sod / 3600).toNat (by norm_num) (by omega)).2.1
  have hp5 := (padNat_spec 2 ((sod % 3600) / 60).toNat (by norm_num)
    (by omega)).2.1
  have hp6 := (padNat_spec 2 (sod % 60).toNat (by norm_num) (by omega)).2.1
  intro c hc
  simp only [List.mem_append, List.mem_cons, List.mem_singleton] at hc
  rcases hc with hc | hc
  · exact Or.inl (hp1 c hc)
  rcases hc with hc | hc
  · exact Or.inr (Or.inl hc)
  rcases hc with hc | hc
  · exact Or.inl (hp2 c hc)
  rcases hc with hc | hc
  · exact Or.inr (Or.inl hc)
  rcases hc with hc | hc
  · exact Or.inl (hp3 c hc)
  rcases hc with hc | hc
  · exact Or.inr (Or.inr (Or.inr (Or.inl hc)))
  rcases hc with hc | hc
  · exact Or.inl (hp4 c hc)
  rcases hc with hc | hc
  · exact Or.inr (Or.inr (Or.inl hc))
  rcases hc with hc | hc
  · exact Or.inl (hp5 c hc)
  rcases hc with hc | hc
  · exact Or.inr (Or.inr (Or.inl hc))
  rcases hc with hc | hc
  · exact Or.inl (hp6 c hc)
  rcases hc with hc | hc
  · exact Or.inr (Or.inr (Or.inr (Or.inr hc)))
  · simp at hc

theorem formatRFC3339_ne_nil (t : Int) : formatRFC3339 t ≠ [] := by
  simp only [formatRFC3339]
  rcases civilFromDays (t / 1000000000 / 86400) with ⟨y, m, d⟩
  simp

theorem formatRFC3339_no_tab (t : Int) (ht : tsRepresentable t) :
    ('\t' : Char) ∉ formatRFC3339 t := by
  intro hmem
  rcases formatRFC3339_chars t ht _ hmem with h | h | h | h | h <;>
    revert h <;> decide

theorem formatRFC3339_no_nl (t : Int) (ht : tsRepresentable t) :
    ('\n' : Char) ∉ formatRFC3339 t := by
  intro hmem
  rcases formatRFC3339_chars t ht _ hmem with h | h | h | h | h <;>
    revert h <;> decide

theorem headI_append_ne (l t : Str) (h : l ≠ []) : (l ++ t).headI = l.headI := by
  rcases l with _ | ⟨c, r⟩
  · simp at h
  · rfl

theorem headI_mem_self (l : Str) (h : l ≠ []) : l.headI ∈ l := by
  rcases l with _ | ⟨c, r⟩
  · simp at h
  · exact List.mem_cons_self c r

theorem getLastD_field (l : Str) (c : Char) (t : Str) (d : Char) (h : t ≠ []) :
    (l ++ c :: t).getLastD d = t.getLastD d := by
  rcases t with _ | ⟨a, t⟩
  · simp at h
  · rw [List.getLastD_eq_getLast?, List.getLastD_eq_getLast?,
      List.getLast?_append, List.getLast?_cons_cons]
    obtain ⟨x, hx⟩ : ∃ x, (a :: t).getLast? = some x :=
      Option.isSome_iff_exists.1 (by simp)
    rw [hx]
    rfl

theorem dropWhile_head_false (p : Char → Bool) (l : Str)
    (h : l = [] ∨ p l.headI = false) : l.dropWhile p = l := by
  rcases l with _ | ⟨c, t⟩
  · rfl
  · rcases h with h | h
    · simp at h
    · rw [List.dropWhile_cons, if_neg]
      simp only [List.headI] at h
      simp [h]

theorem trimGo_eq_self (l : Str)
    (h1 : l = [] ∨ isSpaceGo l.headI = false)
    (h2 : l = [] ∨ isSpaceGo (l.getLastD 'x') = false) :
    trimGo l = l := by
  have hrev : l.reverse = [] ∨ isSpaceGo l.reverse.headI = false := by
    rcases l with _ | ⟨c, t⟩
    · exact Or.inl rfl
    · rcases hrv : (c :: t).reverse with _ | ⟨a, r⟩
      · have := congrArg List.length hrv
        simp at this
      · right
        have hh : (c :: t).getLast? = some a := by
          rw [← List.head?_reverse, hrv]
          rfl
        have hla : (c :: t).getLastD 'x' = a := by
          rw [List.getLastD_eq_getLast?, hh]
          rfl
        rcases h2 with h2 | h2
        · simp at h2
        · rw [hla] at h2
          simpa using h2
  rw [trimGo, dropWhile_head_false _ _ h1, dropWhile_head_false _ _ hrev,
    List.reverse_reverse]

theorem formatBody_ne_nil (e : Entry) : formatBody e ≠ [] := by
  simp [formatBody]

theorem formatBody_no_nl (e : Entry) (hg : goodEntry e) :
    ('\n' : Char) ∉ formatBody e := by
  obtain ⟨hv, hi, hf, hs, ha, hane, halast, hts⟩ := hg
  intro hmem
  simp only [formatBody, List.mem_append, List.mem_cons] at hmem
  rcases hmem with h | h | h | h | h | h | h | h | h | h | h
  · exact formatRFC3339_no_nl _ hts h
  · exact absurd h (by decide)
  · exact hv.2 h
  · exact absurd h (by decide)
  · exact hi.2 h
  · exact absurd h (by decide)
  · exact hf.2 h
  · exact absurd h (by decide)
  · exact hs.2 h
  · exact absurd h (by decide)
  · exact ha.2 h

theorem splitOnC_formatBody (e : Entry) (hg : goodEntry e) :
    splitOnC '\t' (formatBody e) =
      [formatRFC3339 e.timestamp, e.version, e.internalID, e.filename,
        e.sha256, e.action] := by
  obtain ⟨hv, hi, hf, hs, ha, hane, halast, hts⟩ := hg
  rw [formatBody, splitOnC_append_cons _ _ _ (formatRFC3339_no_tab _ hts),
    splitOnC_append_cons _ _ _ hv.1, splitOnC_append_cons _ _ _ hi.1,
    splitOnC_append_cons _ _ _ hf.1, splitOnC_append_cons _ _ _ hs.1,
    splitOnC_no_sep _ _ ha.1]

theorem trim_formatBody (e : Entry) (hg : goodEntry e) :
    trimGo (formatBody e) = formatBody e := by
  obtain ⟨hv, hi, hf, hs, ha, hane, halast, hts⟩ := hg
  apply trimGo_eq_self
  · right
    rw [formatBody, headI_append_ne _ _ (formatRFC3339_ne_nil _)]
    apply isSpaceGo_eq_false
    exact formatRFC3339_chars _ hts _
      (headI_mem_self _ (formatRFC3339_ne_nil _))
  · right
    rw [formatBody, getLastD_field _ _ _ _ (by simp),
      getLastD_field _ _ _ _ (by simp), getLastD_field _ _ _ _ (by simp),
      getLastD_field _ _ _ _ (by simp), getLastD_field _ _ _ _ hane]
    exact halast

theorem readLine_formatBody (e : Entry) (hg : goodEntry e) :
    readLine (formatBody e) = some e := by
  rw [readLine, trim_formatBody e hg, if_neg (formatBody_ne_nil e)]
  simp only [parseEntry, splitOnC_formatBody e hg,
    rfc3339_fmt_parse e.timestamp hg.2.2.2.2.2.2.2]

theorem foldl_ledgerAppend_some (es : List Entry) (c : Str) :
    es.foldl ledgerAppend (some c) = some (c ++ (es.map formatLine).flatten) := by
  induction es generalizing c with
  | nil => simp
  | cons e t ih =>
    rw [List.foldl_cons]
    have h1 : ledgerAppend (some c) e = some (c ++ formatLine e) := rfl
    rw [h1, ih]
    simp

theorem readAll_flatten (es : List Entry) (h : ∀ x ∈ es, goodEntry x) :
    readAll (some ((es.map formatLine).flatten)) = es := by
  induction es with
  | nil => rfl
  | cons e t ih =>
    have hg := h e (List.mem_cons_self e t)
    have hrest : ∀ x ∈ t, goodEntry x := fun x hx => h x (List.mem_cons_of_mem e hx)
    rw [List.map_cons, List.flatten_cons]
    have hline : formatLine e ++ (t.map formatLine).flatten =
        formatBody e ++ '\n' :: (t.map formatLine).flatten := by
      rw [formatLine, List.append_assoc]
      rfl
    rw [hline, readAll_some, splitOnC_append_cons _ _ _ (formatBody_no_nl e hg),
      List.filterMap_cons, readLine_formatBody e hg, ← readAll_some, ih hrest]

/-- C8: the unrestricted round-trip claim fails: a single entry whose
filename field contains a tab character is appended as a seven-field line,
which ReadAll then skips, returning zero entries instead of one. -/
theorem C8_counterexample :
    readAll (ledgerAppend none eTab) = [] ∧ [eTab] ≠ ([] : List Entry) := by
  constructor
  · decide
  · simp

/-- C8 (amended): for entries whose fields contain no tab or newline,
whose action is nonempty and does not end in trimmed whitespace, and whose
timestamp is a whole second representable up to year 9999, appending N
entries to an initially absent ledger and reading back returns exactly
those N entries in append order; each append extends the existing bytes
(never truncating) with a single newline-terminated line whose body splits
into the six tab-separated fields, timestamp first and action last. -/
theorem C8_roundtrip (es : List Entry) (h : ∀ x ∈ es, goodEntry x) :
    readAll (es.foldl ledgerAppend none) = es ∧
    (∀ c e', ledgerAppend (some c) e' = some (c ++ formatLine e')) ∧
    (∀ e' ∈ es, splitOnC '\n' (formatLine e') = [formatBody e', []] ∧
      splitOnC '\t' (formatBody e') =
        [formatRFC3339 e'.timestamp, e'.version, e'.internalID, e'.filename,
          e'.sha256, e'.action]) := by
  refine ⟨?_, fun c e' => rfl, fun e' he' => ⟨?_, splitOnC_formatBody e' (h e' he')⟩⟩
  · rcases es with _ | ⟨e, t⟩
    · rfl
    · rw [show (e :: t).foldl ledgerAppend none =
          (e :: t).foldl ledgerAppend (some ([] ++ [])) from rfl]
      rw [List.foldl_cons]
      have h1 : ledgerAppend (some ([] ++ [])) e = some ([] ++ formatLine e) := rfl
      rw [h1, foldl_ledgerAppend_some, List.nil_append]
      have : formatLine e ++ (t.map formatLine).flatten =
          ((e :: t).map formatLine).flatten := by
        simp
      rw [this]
      exact readAll_flatten _ h
  · rw [formatLine, splitOnC_append_cons _ _ _
      (formatBody_no_nl e' (h e' he'))]
    rfl

/-- C8 witness: the two sample entries of the repository's ledger tests
round-trip through an initially absent ledger. -/
theorem C8_witness :
    readAll ([e1, e2].foldl ledgerAppend none) = [e1, e2] :=
  (C8_roundtrip [e1, e2] (by decide)).1

theorem foldl_laterEntry_spec (es : List Entry) (e : Entry) :
    ∃ l1 l2, e :: es = l1 ++ es.foldl laterEntry e :: l2 ∧
      (∀ x ∈ l1, x.timestamp < (es.foldl laterEntry e).timestamp) ∧
      (∀ x ∈ e :: es, x.timestamp ≤ (es.foldl laterEntry e).timestamp) := by
  induction es generalizing e with
  | nil => exact ⟨[], [], rfl, by simp, by simp⟩
  | cons a t ih =>
    rw [List.foldl_cons]
    obtain ⟨l1, l2, hdec, hlt, hle⟩ := ih (laterEntry e a)
    by_cases hcase : e.timestamp < a.timestamp
    · have hla : laterEntry e a = a := if_pos hcase
      rw [hla] at hdec hlt hle ⊢
      have ham : a.timestamp ≤ (t.foldl laterEntry a).timestamp :=
        hle a (List.mem_cons_self a t)
      refine ⟨e :: l1, l2, ?_, ?_, ?_⟩
      · rw [List.cons_append, ← hdec]
      · intro x hx
        rcases List.mem_cons.mp hx with rfl | hx
        · omega
        · exact hlt x hx
      · intro x hx
        rcases List.mem_cons.mp hx with rfl | hx
        · omega
        · exact hle x hx
    · have hla : laterEntry e a = e := if_neg hcase
      rw [hla] at hdec hlt hle ⊢
      rcases l1 with _ | ⟨b, l1t⟩
      · simp only [List.nil_append, List.cons.injEq] at hdec
        obtain ⟨hme, hl2⟩ := hdec
        refine ⟨[], a :: l2, ?_, by simp, ?_⟩
        · rw [List.nil_append, ← hme, hl2]
        · intro x hx
          rcases List.mem_cons.mp hx with rfl | hx
          · exact hle x (List.mem_cons_self _ _)
          rcases List.mem_cons.mp hx with rfl | hx
          · have hee : e.timestamp ≤ (t.foldl laterEntry e).timestamp :=
              hle e (List.mem_cons_self _ _)
            omega
          · exact hle x (List.mem_cons_of_mem _ (hl2 ▸ hx))
      · simp only [List.cons_append, List.cons.injEq] at hdec
        obtain ⟨hbe, ht⟩ := hdec
        have heb : e.timestamp < (t.foldl laterEntry e).timestamp :=
          hbe ▸ hlt b (List.mem_cons_self _ _)
        refine ⟨e :: a :: l1t, l2, ?_, ?_, ?_⟩
        · rw [List.cons_append, List.cons_append, ← ht]
        · intro x hx
          rcases List.mem_cons.mp hx with rfl | hx
          · exact heb
          rcases List.mem_cons.mp hx with rfl | hx
          · omega
          · exact hlt x (List.mem_cons_of_mem _ hx)
        · intro x hx
          rcases List.mem_cons.mp hx with rfl | hx
          · exact hle x (List.mem_cons_self _ _)
          rcases List.mem_cons.mp hx with rfl | hx
          · omega
          · exact hle x (List.mem_cons_of_mem _ hx)

/-- C10: on a ledger whose ReadAll yields at least one entry,
GetLatestVersion returns an entry of the file whose timestamp is maximal,
and the entries preceding it in the file all have strictly smaller
timestamps, so among ties it is the earliest occurrence: the scan replaces
its candidate only on a strictly later timestamp. -/
theorem C10_latest (file : Option Str) (e : Entry) (es : List Entry)
    (h : readAll file = e :: es) :
    ∃ m l1 l2, getLatestVersion file = some m ∧
      e :: es = l1 ++ m :: l2 ∧
      (∀ x ∈ e :: es, x.timestamp ≤ m.timestamp) ∧
      (∀ x ∈ l1, x.timestamp < m.timestamp) := by
  obtain ⟨l1, l2, hdec, hlt, hle⟩ := foldl_laterEntry_spec es e
  exact ⟨es.foldl laterEntry e, l1, l2, by simp only [getLatestVersion, h],
    hdec, hle, hlt⟩

/-- C10 witness: on a concrete three-entry ledger whose first entry ties
the third for the maximal timestamp, the latest-version scan settles on a
maximal entry preceded only by strictly earlier ones. -/
theorem C10_witness :
    readAll ledger10 = e2 :: [e1, e3] ∧
    (∃ m l1 l2, getLatestVersion ledger10 = some m ∧
      e2 :: [e1, e3] = l1 ++ m :: l2 ∧
      (∀ x ∈ e2 :: [e1, e3], x.timestamp ≤ m.timestamp) ∧
      (∀ x ∈ l1, x.timestamp < m.timestamp)) :=
  ⟨by decide, C10_latest ledger10 e2 [e1, e3] (by decide)⟩
end UC
